import Mathlib

/-!
Shallow embedding of the connection/worker/acceptor networking core of
mangos-classic (src/shared/Network: Socket.cpp/hpp, NetworkThread.hpp,
Listener.hpp), together with theorems settling the specification claims.

The embedding is sequential: each C++ member function becomes a Lean
function on an explicit state.  Libevent objects that the core owns are
modelled by the fields the core observes (a bufferevent is its identity
plus its two evbuffers plus the enable/callback flags); libevent calls
that only have external effects (lock/unlock/free) are recorded in an
event trace so that theorems can speak about how often and with which
argument they were made.
-/

namespace MaNGOS

/-- A byte, as stored in an evbuffer. -/
abbrev Byte := Nat

/-- The part of a libevent bufferevent observable by the core: its identity
(the pointer value, used by lock/free bookkeeping), its input and output
evbuffers, which events are enabled, and whether the Socket callbacks are
installed (`bufferevent_setcb` with non-null vs null arguments). -/
structure Bufferevent where
  id : Nat
  input : List Byte
  output : List Byte
  readEnabled : Bool
  writeEnabled : Bool
  cbInstalled : Bool
  deriving Repr, DecidableEq

/-- `MaNGOS::Socket` state: the `m_bev` field (null = `none`) and the two
immutable strings.  The mutexes have no sequential content; the
close-notification callback is modelled at the worker level. -/
structure Socket where
  m_bev : Option Bufferevent
  m_address : String
  m_remoteEndpoint : String
  deriving Repr, DecidableEq

/-- Trace of one `Socket::Close()` call: whether the LIVE→DETACHED
transition happened (null published to `m_bev`), whether the
close-notification callback was invoked, which bufferevents were freed,
and the argument of each `bufferevent_lock` / `bufferevent_unlock` call
(`none` records a call made with a null pointer). -/
structure CloseEv where
  transitioned : Bool
  notified : Bool
  freed : List Nat
  lockCalls : List (Option Nat)
  unlockCalls : List (Option Nat)
  deriving Repr, DecidableEq

/-- The trace of a `Close()` call that returned on a fast or slow path
without doing anything. -/
def CloseEv.noop : CloseEv := ⟨false, false, [], [], []⟩

/-- `Socket::Close()` (Socket.cpp:50-75).  Fast path: return if `m_bev`
is already null.  Otherwise (locks acquired; the slow-path re-check is
the same test again): `bufferevent_lock(m_bev)`, disable EV_READ|EV_WRITE,
clear the callbacks, snapshot `m_bev` into `l_bev`, publish null to
`m_bev`, `bufferevent_unlock(m_bev)` — note the source passes the *field*,
which is null by then, not the snapshot — then `bufferevent_free(l_bev)`
and invoke the close handler. -/
def Socket.Close (s : Socket) : Socket × CloseEv :=
  match s.m_bev with
  | none => (s, CloseEv.noop)
  | some bev =>
    let lockArg : Option Nat := some bev.id
    let bev' : Bufferevent :=
      { bev with readEnabled := false, writeEnabled := false, cbInstalled := false }
    let l_bev := bev'
    let s' : Socket := { s with m_bev := none }
    let unlockArg : Option Nat := s'.m_bev.map Bufferevent.id
    (s', { transitioned := true, notified := true, freed := [l_bev.id],
           lockCalls := [lockArg], unlockCalls := [unlockArg] })

/-- `Socket::IsClosed()` (Socket.cpp:77-85): true iff `m_bev` is null. -/
def Socket.IsClosed (s : Socket) : Bool := s.m_bev.isNone

/-- `Socket::Read(buffer, length)` (Socket.cpp:131-150).  Returns the new
socket state, the boolean result, and the bytes copied into `buffer`. -/
def Socket.Read (s : Socket) (length : Nat) : Socket × Bool × List Byte :=
  match s.m_bev with
  | none => (s, false, [])
  | some bev =>
    if bev.input.length < length then (s, false, [])
    else ({ s with m_bev := some { bev with input := bev.input.drop length } },
          true, bev.input.take length)

/-- `Socket::Write(buffer, length)` (Socket.cpp:152-163): append to the
output evbuffer, silently dropped when detached. -/
def Socket.Write (s : Socket) (buffer : List Byte) : Socket :=
  match s.m_bev with
  | none => s
  | some bev => { s with m_bev := some { bev with output := bev.output ++ buffer } }

/-- `Socket::ReadLengthRemaining()` (Socket.cpp:165-178): length of the
input evbuffer, 0 when detached. -/
def Socket.ReadLengthRemaining (s : Socket) : Nat :=
  match s.m_bev with
  | none => 0
  | some bev => bev.input.length

/-- `Socket::ReadSkip(length)` (Socket.cpp:180-192): `evbuffer_drain`
drops `min(length, available)` bytes from the head; no-op when detached. -/
def Socket.ReadSkip (s : Socket) (length : Nat) : Socket :=
  match s.m_bev with
  | none => s
  | some bev => { s with m_bev := some { bev with input := bev.input.drop length } }

/-- `Socket::InPeek()` (Socket.cpp:194-213): non-consuming look at the
first input byte; null when detached or the buffer is empty. -/
def Socket.InPeek (s : Socket) : Option Byte :=
  match s.m_bev with
  | none => none
  | some bev => if bev.input.length < 1 then none else bev.input.head?

/-- Iterate `Close()` `n` times, collecting the per-call traces in call
order. -/
def Socket.closeN : Nat → Socket → Socket × List CloseEv
  | 0, s => (s, [])
  | n + 1, s =>
    let (s₁, e) := s.Close
    let (s₂, evs) := Socket.closeN n s₁
    (s₂, e :: evs)

/-- The errno value `EBADMSG` tested by `Socket::ReadCallback` (its Linux
value; only equality with it matters). -/
def EBADMSG : Nat := 74

/-- Result of one call to the protocol handler `ProcessIncomingData()`:
the boolean it returned, the socket state it left behind (it consumes
inbound bytes through the Socket operations), and the thread-local
`errno` after the call. -/
structure HandlerOut where
  result : Bool
  state : Socket
  errnoVal : Nat

/-- Why `Socket::ReadCallback()` returned. -/
inductive CbExit where
  | drained
  | handlerFalse (errnoVal : Nat)
  | fuelOut
  deriving Repr, DecidableEq

/-- Observable outcome of `Socket::ReadCallback()`: final socket state,
number of `sLog.outError` lines emitted, number of `Close()` calls the
callback itself made, and the exit reason. -/
structure CbResult where
  state : Socket
  logs : Nat
  closeCalls : Nat
  exit : CbExit

/-- `Socket::ReadCallback()` (Socket.cpp:112-129): while
`ReadLengthRemaining() > 0`, call `ProcessIncomingData()`; on a false
return, log iff `errno == EBADMSG` and return (the `//Close()?` is
commented out, so the callback never closes).  The C++ loop can diverge
if the handler keeps returning true without consuming, so the embedding
carries fuel; fuel exhaustion is reported as a distinct exit. -/
def Socket.ReadCallbackLoop (handler : Socket → HandlerOut) :
    Nat → Socket → CbResult
  | 0, s =>
    if s.ReadLengthRemaining > 0 then ⟨s, 0, 0, CbExit.fuelOut⟩
    else ⟨s, 0, 0, CbExit.drained⟩
  | fuel + 1, s =>
    if s.ReadLengthRemaining > 0 then
      if (handler s).result then Socket.ReadCallbackLoop handler fuel (handler s).state
      else ⟨(handler s).state, if (handler s).errnoVal = EBADMSG then 1 else 0, 0,
            CbExit.handlerFalse (handler s).errnoVal⟩
    else ⟨s, 0, 0, CbExit.drained⟩

end MaNGOS

namespace MaNGOS

/-- A small concrete live socket used by witnesses. -/
def sampleBev : Bufferevent :=
  { id := 7, input := [1, 2, 3, 4, 5], output := [], readEnabled := true,
    writeEnabled := true, cbInstalled := true }

/-- A live socket wrapping `sampleBev`. -/
def sampleSock : Socket :=
  { m_bev := some sampleBev, m_address := "127.0.0.1",
    m_remoteEndpoint := "127.0.0.1:3724" }

/-- A protocol handler that always reports a malformed/incomplete frame:
it returns false, leaves the state untouched and sets errno to EBADMSG. -/
def badFrameHandler : Socket → HandlerOut :=
  fun s => ⟨false, s, EBADMSG⟩

/-- `inet_ntop(AF_INET, ...)` on the four address octets: dotted-decimal
text.  (libc collaborator, modelled for the IPv4 case the core uses.) -/
def inet_ntop4 (a b c d : Nat) : String :=
  toString a ++ "." ++ toString b ++ "." ++ toString c ++ "." ++ toString d

/-- The numeric value of the `sin_port` field for peer port `p`: the
field holds the port in network byte order (big-endian bytes `p / 256`,
`p % 256`), and reading it as a host `uint16_t` on a little-endian
machine — the platform the server targets — yields the swapped value. -/
def sin_port_le (p : Nat) : Nat := (p % 256) * 256 + (p / 256) % 256

/-- The two strings computed by the `Socket` constructor
(Socket.cpp:35-47) for a peer `a.b.c.d:p`: `m_address` is
`inet_ntop(AF_INET, sin_addr)` and `m_remoteEndpoint` appends `':'` and
`std::to_string(addr->sin_port)` — the raw field value, with no `ntohs`. -/
def socketCtorStrings (a b c d p : Nat) : String × String :=
  let saddr := inet_ntop4 a b c d
  (saddr, saddr ++ ":" ++ toString (sin_port_le p))

/-- Split a character list on `'.'` separators (helper for `inet_aton`). -/
def splitDots : List Char → List (List Char)
  | [] => [[]]
  | c :: rest =>
    if c = '.' then [] :: splitDots rest
    else
      match splitDots rest with
      | [] => [[c]]
      | g :: gs => (c :: g) :: gs

/-- Decimal value of a digit run; `none` if empty or non-digit. -/
def parseOctet (cs : List Char) : Option Nat :=
  if cs.isEmpty then none
  else if cs.all Char.isDigit then
    some (cs.foldl (fun n c => n * 10 + (c.toNat - 48)) 0)
  else none

/-- libc `inet_aton` (external collaborator), modelled for the
dotted-decimal quad form the core's configuration uses: four non-empty
decimal parts, each at most 255; anything else fails (returns 0 in C,
`none` here).  `"999.0.0.1"` fails because 999 > 255. -/
def inet_aton (s : String) : Option (Nat × Nat × Nat × Nat) :=
  match (splitDots s.toList).map parseOctet with
  | [some a, some b, some c, some d] =>
    if a ≤ 255 ∧ b ≤ 255 ∧ c ≤ 255 ∧ d ≤ 255 then some (a, b, c, d) else none
  | _ => none

/-- Observable outcome of the `Listener` constructor: how many OS
threads the construction spawned before returning or throwing, and
whether it succeeded. -/
structure ListenerCtorTrace where
  threadsSpawned : Nat
  outcome : Except String Unit
  deriving Repr

/-- `Listener<SocketType>::Listener` (Listener.hpp:100-136).  It first
builds `workerThreads` NetworkThreads — each `NetworkThread` constructor
(NetworkThread.hpp:60-78) spawns its cleanup thread and its service
thread — then creates the event base, and only then validates `bind_ip`
with `inet_aton`, throwing "Invalid BindIP" on failure.  On success the
listener is bound and the acceptor thread is spawned.  Allocation
failures of the base/listener are not modelled (assumed to succeed). -/
def listenerConstruct (bind_ip : String) (_port workerThreads : Nat) :
    ListenerCtorTrace :=
  let t := 2 * workerThreads
  if (inet_aton bind_ip).isNone then ⟨t, Except.error "Invalid BindIP"⟩
  else ⟨t + 1, Except.ok ()⟩

/-- `Listener<SocketType>::SelectWorker` (Listener.hpp:72-89): running
minimum scan over the workers' live-set sizes with strict-`<` update.
Arguments: sizes not yet scanned, index of the next one, current
`minIndex`, current `minSize`; returns the final `(minIndex, minSize)`. -/
def selectWorkerAux : List Nat → Nat → Nat → Nat → Nat × Nat
  | [], _, minIndex, minSize => (minIndex, minSize)
  | sz :: rest, i, minIndex, minSize =>
    if sz < minSize then selectWorkerAux rest (i + 1) i sz
    else selectWorkerAux rest (i + 1) minIndex minSize

/-- Index of the worker `SelectWorker` picks, as a function of the list
of live-set sizes (`minIndex = 0`, `minSize = size of worker 0`, then
the scan from index 1).  The C++ code indexes a non-empty worker vector;
`[]` is outside its domain. -/
def selectWorker (sizes : List Nat) : Nat :=
  match sizes with
  | [] => 0
  | s0 :: rest => (selectWorkerAux rest 1 0 s0).1

/-- Effect of one `AcceptCallback` (Listener.hpp:147-155) on the live
counts: `SelectWorker` picks a worker and that worker's `CreateSocket`
pushes one Connection into its live-set. -/
def acceptOne (sizes : List Nat) : List Nat :=
  sizes.set (selectWorker sizes) (sizes.getD (selectWorker sizes) 0 + 1)

/-- Live counts after `k` sequential accepts on `N` workers starting
empty, with no intervening closes. -/
def acceptK (N : Nat) : Nat → List Nat
  | 0 => List.replicate N 0
  | k + 1 => acceptOne (acceptK N k)

/-- All live counts are within 1 of one another. -/
def Balanced (l : List Nat) : Prop :=
  ∀ a b, a < l.length → b < l.length → l.getD a 0 ≤ l.getD b 0 + 1

/-- `NetworkThread` ownership state, with Connections named by ids:
`live` is `m_sockets`, `closing` is `m_closingSockets`, `destroyed`
records the Connections whose `unique_ptr` has been dropped, `closedIds`
records which Connections have published a null `m_bev` (`IsClosed()`),
and `nextId` names the next Connection `CreateSocket` builds. -/
structure WorkerState where
  live : List Nat
  closing : List Nat
  destroyed : List Nat
  closedIds : List Nat
  nextId : Nat
  deriving Repr, DecidableEq

/-- A freshly constructed worker owns nothing. -/
def WorkerState.init : WorkerState := ⟨[], [], [], [], 0⟩

/-- `NetworkThread::CreateSocket` (NetworkThread.hpp:140-150): under the
live-set lock, push a new Connection (live `m_bev`) at the front of the
live-set. -/
def WorkerState.createSocket (w : WorkerState) : WorkerState :=
  { w with live := w.nextId :: w.live, nextId := w.nextId + 1 }

/-- `NetworkThread::RemoveSocket` (NetworkThread.hpp:103-115): under the
live lock then the closing lock, if the socket is found in the live-set
it is moved to the front of the closing-set and erased from the
live-set; otherwise nothing happens. -/
def WorkerState.removeSocket (w : WorkerState) (id : Nat) : WorkerState :=
  if id ∈ w.live then
    { w with live := w.live.erase id, closing := id :: w.closing }
  else w

/-- `Socket::Close` (Socket.cpp:50-75) as it affects the owning worker:
fast-path return if the Connection is already closed; otherwise publish
the null handle (mark the id closed) and only then invoke the
close-notification callback, which is `RemoveSocket`
(NetworkThread.hpp:147). -/
def WorkerState.closeSocket (w : WorkerState) (id : Nat) : WorkerState :=
  if id ∈ w.closedIds then w
  else ({ w with closedIds := id :: w.closedIds }).removeSocket id

/-- One pass of the reaper loop body (`SocketCleanupWork`,
NetworkThread.hpp:121-138): under the closing lock, erase — destroy —
every closing-set entry whose `IsClosed()` is true; the rest stay. -/
def WorkerState.cleanupSweep (w : WorkerState) : WorkerState :=
  { w with
    closing := w.closing.filter (fun id => decide (id ∉ w.closedIds)),
    destroyed := w.closing.filter (fun id => decide (id ∈ w.closedIds)) ++ w.destroyed }

/-- One iteration of the `~NetworkThread` destructor loop
(NetworkThread.hpp:83-90): if the head of the live-set is already
closed, erase (destroy) it directly, else call `Close()` on it. -/
def WorkerState.dtorStep (w : WorkerState) : WorkerState :=
  match w.live with
  | [] => w
  | h :: t =>
    if h ∈ w.closedIds then { w with live := t, destroyed := h :: w.destroyed }
    else w.closeSocket h

/-- The operations that touch a worker's ownership containers. -/
inductive WorkerOp where
  | create
  | close (id : Nat)
  | sweep
  | dtor

/-- Apply one operation. -/
def WorkerState.step (w : WorkerState) : WorkerOp → WorkerState
  | WorkerOp.create => w.createSocket
  | WorkerOp.close id => w.closeSocket id
  | WorkerOp.sweep => w.cleanupSweep
  | WorkerOp.dtor => w.dtorStep

/-- Connection `id` is in exactly one of live-set, closing-set,
destroyed. -/
def ExactlyOne (w : WorkerState) (id : Nat) : Prop :=
  (id ∈ w.live ∧ id ∉ w.closing ∧ id ∉ w.destroyed) ∨
  (id ∉ w.live ∧ id ∈ w.closing ∧ id ∉ w.destroyed) ∨
  (id ∉ w.live ∧ id ∉ w.closing ∧ id ∈ w.destroyed)

/-- Ownership invariant: the containers hold no duplicates, every owned
id was created (`< nextId`), and every created id is in exactly one
container. -/
def Inv9 (w : WorkerState) : Prop :=
  w.live.Nodup ∧ w.closing.Nodup ∧ w.destroyed.Nodup ∧
  (∀ id ∈ w.live, id < w.nextId) ∧
  (∀ id ∈ w.closing, id < w.nextId) ∧
  (∀ id ∈ w.destroyed, id < w.nextId) ∧
  (∀ id, id < w.nextId → ExactlyOne w id)

/-- Close-before-notify invariant: everything in the closing-set — and
everything already destroyed — has `IsClosed() = true`. -/
def Inv10 (w : WorkerState) : Prop :=
  (∀ id ∈ w.closing, id ∈ w.closedIds) ∧
  (∀ id ∈ w.destroyed, id ∈ w.closedIds)

lemma Close_of_none {s : Socket} (h : s.m_bev = none) : s.Close = (s, CloseEv.noop) := by
  unfold Socket.Close
  split
  · rfl
  · rename_i bev hb
    rw [h] at hb
    exact absurd hb (by simp)

lemma Close_fst_mbev (s : Socket) : (s.Close).1.m_bev = none := by
  unfold Socket.Close
  split
  · assumption
  · rfl

lemma Close_of_some {s : Socket} {bev : Bufferevent} (h : s.m_bev = some bev) :
    s.Close = ({ s with m_bev := none },
               { transitioned := true, notified := true, freed := [bev.id],
                 lockCalls := [some bev.id], unlockCalls := [none] }) := by
  unfold Socket.Close
  split
  · rename_i hb
    rw [h] at hb
    exact absurd hb (by simp)
  · rename_i bev' hb
    rw [h] at hb
    cases hb
    rfl

lemma flatten_replicate_nil (m : Nat) : (List.replicate m ([] : List Nat)).flatten = [] := by
  induction m with
  | zero => rfl
  | succ k ih => simp [List.replicate_succ, ih]

/-- All `Close()` calls after the first are counted no-ops: iterating
`Close` `n + 1` times yields the state of the first call and a trace of
its event followed by `n` empty events. -/
lemma closeN_succ_eq (s : Socket) (n : Nat) :
    Socket.closeN (n + 1) s = ((s.Close).1, (s.Close).2 :: List.replicate n CloseEv.noop) := by
  induction n generalizing s with
  | zero => simp [Socket.closeN]
  | succ k ih =>
    have h1 : Socket.closeN (k + 1 + 1) s =
        ((Socket.closeN (k + 1) (s.Close).1).1,
         (s.Close).2 :: (Socket.closeN (k + 1) (s.Close).1).2) := rfl
    rw [h1, ih (s.Close).1, Close_of_none (Close_fst_mbev s)]
    simp [List.replicate_succ]

/-- **C1.** `Close()` is idempotent: for every live socket and every
`n ≥ 1`, calling `Close()` `n` times produces exactly one LIVE→DETACHED
transition, exactly one close-notification, exactly one free of the
underlying bufferevent, and every call after the first leaves the state
unchanged with an empty event trace. -/
theorem c1_close_idempotent (s : Socket) (bev : Bufferevent)
    (h : s.m_bev = some bev) (n : Nat) (hn : 1 ≤ n) :
    ((Socket.closeN n s).2.countP (·.transitioned)) = 1 ∧
    ((Socket.closeN n s).2.countP (·.notified)) = 1 ∧
    (((Socket.closeN n s).2.map CloseEv.freed).flatten = [bev.id]) ∧
    (Socket.closeN n s).1 = (s.Close).1 ∧
    ∀ e ∈ (Socket.closeN n s).2.tail, e = CloseEv.noop := by
  obtain ⟨m, rfl⟩ : ∃ m, n = m + 1 := ⟨n - 1, (Nat.succ_pred_eq_of_pos hn).symm⟩
  rw [closeN_succ_eq, Close_of_some h]
  refine ⟨?_, ?_, ?_, rfl, ?_⟩
  · simp [List.countP_cons, CloseEv.noop]
  · simp [List.countP_cons, CloseEv.noop]
  · simp [List.map_replicate, CloseEv.noop, flatten_replicate_nil]
  · intro e he
    exact List.eq_of_mem_replicate he

/-- Witness for C1: three `Close()` calls on a concrete live socket. -/
theorem c1_close_idempotent_witness :
    sampleSock.m_bev = some sampleBev ∧ 1 ≤ 3 ∧
    ((Socket.closeN 3 sampleSock).2.countP (·.transitioned)) = 1 ∧
    ((Socket.closeN 3 sampleSock).2.countP (·.notified)) = 1 ∧
    (((Socket.closeN 3 sampleSock).2.map CloseEv.freed).flatten = [sampleBev.id]) := by
  have h := c1_close_idempotent sampleSock sampleBev rfl 3 (by decide)
  exact ⟨rfl, by decide, h.1, h.2.1, h.2.2.1⟩

/-- **C3.** In `Close()` the source calls `bufferevent_unlock(m_bev)`
*after* publishing null to `m_bev`, so the unlock call receives the null
pointer rather than the bufferevent whose lock step 4 acquired: on a
concrete live socket the lock call's argument is handle 7 while the
unlock call's argument is null, contradicting the claim that the unlock
releases the same per-stream lock. -/
theorem c3_unlock_gets_null :
    (sampleSock.Close).2.lockCalls = [some 7] ∧
    (sampleSock.Close).2.unlockCalls = [none] ∧
    (sampleSock.Close).2.unlockCalls ≠ (sampleSock.Close).2.lockCalls := by
  refine ⟨rfl, rfl, by decide⟩

/-- **C2.** After `Close()` has returned, every subsequent public
operation returns the detached sentinel: `Read` returns false and
consumes nothing, `Write` drops its bytes, `ReadSkip` is a no-op,
`InPeek` is null, `ReadLengthRemaining` is 0, and `IsClosed` is true. -/
theorem c2_post_detach_sentinels (s₀ : Socket) (n : Nat) (buf : List Byte) :
    (((Socket.Close s₀).1).Read n = ((Socket.Close s₀).1, false, [])) ∧
    (((Socket.Close s₀).1).Write buf = (Socket.Close s₀).1) ∧
    (((Socket.Close s₀).1).ReadSkip n = (Socket.Close s₀).1) ∧
    (((Socket.Close s₀).1).InPeek = none) ∧
    (((Socket.Close s₀).1).ReadLengthRemaining = 0) ∧
    (((Socket.Close s₀).1).IsClosed = true) := by
  have h := Close_fst_mbev s₀
  unfold Socket.Read Socket.Write Socket.ReadSkip Socket.InPeek
    Socket.ReadLengthRemaining Socket.IsClosed
  rw [h]
  simp

/-- **C6.** On a live socket: if the input buffer holds at least `n`
bytes, `Read` copies exactly the first `n` bytes out, consumes exactly
them, and returns true; otherwise it returns false and changes nothing. -/
theorem c6_read_exact (s : Socket) (bev : Bufferevent) (h : s.m_bev = some bev)
    (n : Nat) :
    (n ≤ bev.input.length →
      s.Read n = ({ s with m_bev := some { bev with input := bev.input.drop n } },
                  true, bev.input.take n)) ∧
    (bev.input.length < n → s.Read n = (s, false, [])) := by
  constructor
  · intro hle
    unfold Socket.Read
    rw [h]
    simp [Nat.not_lt.mpr hle]
  · intro hlt
    unfold Socket.Read
    rw [h]
    simp [hlt]

/-- Witness for C6 on a concrete socket: 3 of the 5 buffered bytes are
read out and consumed, and a 9-byte request fails without consuming. -/
theorem c6_read_exact_witness :
    (3 ≤ sampleBev.input.length ∧
      sampleSock.Read 3 =
        ({ sampleSock with m_bev := some { sampleBev with input := [4, 5] } },
         true, [1, 2, 3])) ∧
    (sampleBev.input.length < 9 ∧ sampleSock.Read 9 = (sampleSock, false, [])) := by
  refine ⟨⟨by decide, ?_⟩, ⟨by decide, ?_⟩⟩
  · have h := (c6_read_exact sampleSock sampleBev rfl 3).1 (by decide)
    rw [h]
    rfl
  · exact (c6_read_exact sampleSock sampleBev rfl 9).2 (by decide)

/-- **C7.** For every protocol handler, fuel and start state, the
read-ready callback itself never calls `Close()`; and whenever it exits
because the handler returned false, it logs exactly when the errno was
`EBADMSG` (and stays quiet otherwise), and the final socket state is
exactly the state the failing handler call left behind — the core drops
no bytes and does not detach the connection. -/
theorem c7_readcallback_false_exit (handler : Socket → HandlerOut)
    (fuel : Nat) (s : Socket) :
    (Socket.ReadCallbackLoop handler fuel s).closeCalls = 0 ∧
    (∀ e, (Socket.ReadCallbackLoop handler fuel s).exit = CbExit.handlerFalse e →
      ((Socket.ReadCallbackLoop handler fuel s).logs = 1 ↔ e = EBADMSG) ∧
      ∃ t, t.ReadLengthRemaining > 0 ∧ (handler t).result = false ∧
        (handler t).errnoVal = e ∧
        (Socket.ReadCallbackLoop handler fuel s).state = (handler t).state) := by
  induction fuel generalizing s with
  | zero =>
    constructor
    · unfold Socket.ReadCallbackLoop
      split <;> rfl
    · intro e he
      unfold Socket.ReadCallbackLoop at he
      split at he <;> simp_all
  | succ k ih =>
    unfold Socket.ReadCallbackLoop
    split
    · rename_i hrem
      split
      · exact ih (handler s).state
      · rename_i hres
        constructor
        · rfl
        · intro e he
          have he' : (handler s).errnoVal = e := by
            simpa using congrArg
              (fun x => match x with | CbExit.handlerFalse v => v | _ => 0) he
          subst he'
          refine ⟨?_, s, hrem, by simpa using hres, rfl, rfl⟩
          constructor
          · intro hl
            by_contra hne
            simp [hne] at hl
          · intro hl
            simp [hl]
    · exact ⟨rfl, fun e he => by simp_all⟩

/-- Witness for C7: on a concrete socket with buffered bytes, a handler
that reports a malformed frame (false, errno = EBADMSG) makes the
callback exit after one log line, with no close and the state intact. -/
theorem c7_readcallback_false_exit_witness :
    (Socket.ReadCallbackLoop badFrameHandler 5 sampleSock).exit =
      CbExit.handlerFalse EBADMSG ∧
    (Socket.ReadCallbackLoop badFrameHandler 5 sampleSock).closeCalls = 0 ∧
    (Socket.ReadCallbackLoop badFrameHandler 5 sampleSock).logs = 1 ∧
    (Socket.ReadCallbackLoop badFrameHandler 5 sampleSock).state = sampleSock := by
  have h := c7_readcallback_false_exit badFrameHandler 5 sampleSock
  have hx : (Socket.ReadCallbackLoop badFrameHandler 5 sampleSock).exit =
      CbExit.handlerFalse EBADMSG := rfl
  exact ⟨hx, h.1, ((h.2 EBADMSG hx).1).mpr rfl, rfl⟩

/-- **C8.** The constructor renders the peer port by feeding the raw
`sin_port` field (network byte order) to `std::to_string` with no
`ntohs`: for peer `127.0.0.1:3724` the stored remote-endpoint string is
`"127.0.0.1:35854"` (0x0E8C byte-swapped is 0x8C0E), not
`"127.0.0.1:3724"`; the address string is correct. -/
theorem c8_endpoint_renders_raw_sin_port :
    socketCtorStrings 127 0 0 1 3724 = ("127.0.0.1", "127.0.0.1:35854") ∧
    sin_port_le 3724 = 35854 ∧
    ("127.0.0.1:35854" : String) ≠ "127.0.0.1:3724" :=
  ⟨rfl, rfl, by decide⟩

/-- **C4 (counterexample).** Building a Listener on the invalid literal
`"999.0.0.1"` with one worker does fail with the configuration error,
but two threads (the worker's reactor and reaper) have already been
spawned, contradicting "no threads are spawned". -/
theorem c4_invalid_bind_spawns_threads :
    inet_aton "999.0.0.1" = none ∧
    (listenerConstruct "999.0.0.1" 7000 1).outcome =
      Except.error "Invalid BindIP" ∧
    (listenerConstruct "999.0.0.1" 7000 1).threadsSpawned = 2 ∧
    (listenerConstruct "999.0.0.1" 7000 1).threadsSpawned ≠ 0 := by
  have hip : inet_aton "999.0.0.1" = none := by decide
  refine ⟨hip, ?_, ?_, ?_⟩ <;> simp [listenerConstruct, hip]

/-- **C4 (amended).** Constructing an Acceptor with an invalid IPv4 bind
literal fails at construction with the configuration error
"Invalid BindIP", but only after the worker pool is built: two threads
per worker are spawned before the bind-address check runs. -/
theorem c4_invalid_bind_amended (ip : String) (p w : Nat)
    (hip : inet_aton ip = none) (hw : 1 ≤ w) :
    (listenerConstruct ip p w).outcome = Except.error "Invalid BindIP" ∧
    (listenerConstruct ip p w).threadsSpawned = 2 * w ∧
    (listenerConstruct ip p w).threadsSpawned ≠ 0 := by
  unfold listenerConstruct
  simp [hip]
  omega

lemma getD_set_self {l : List Nat} {r x : Nat} (h : r < l.length) :
    (l.set r x).getD r 0 = x := by
  rw [List.getD_eq_getElem?_getD, List.getElem?_set]
  simp [h]

lemma getD_set_ne {l : List Nat} (r j x : Nat) (h : r ≠ j) :
    (l.set r x).getD j 0 = l.getD j 0 := by
  rw [List.getD_eq_getElem?_getD, List.getElem?_set, if_neg h,
    ← List.getD_eq_getElem?_getD]

lemma sum_set_succ : ∀ (l : List Nat) (k : Nat), k < l.length →
    (l.set k (l.getD k 0 + 1)).sum = l.sum + 1
  | [], k, h => absurd h (by simp)
  | a :: t, 0, _ => by simp; omega
  | a :: t, k + 1, h => by
    have ih := sum_set_succ t k (by simpa using h)
    simp only [List.getD_cons_succ, List.set_cons_succ, List.sum_cons]
    omega

/-- Full specification of the `SelectWorker` scan, relative to the whole
sizes list `l`: given the scan state is valid for the prefix before `i`,
the result indexes the first minimum of `l`. -/
lemma selectWorkerAux_spec :
    ∀ (rest : List Nat) (i mi mv : Nat) (l : List Nat),
      l.drop i = rest → mi < i → i ≤ l.length →
      l.getD mi 0 = mv →
      (∀ j, j < i → mv ≤ l.getD j 0) →
      (∀ j, j < mi → mv < l.getD j 0) →
      (selectWorkerAux rest i mi mv).1 < l.length ∧
      l.getD (selectWorkerAux rest i mi mv).1 0 = (selectWorkerAux rest i mi mv).2 ∧
      (∀ j, j < l.length → (selectWorkerAux rest i mi mv).2 ≤ l.getD j 0) ∧
      (∀ j, j < (selectWorkerAux rest i mi mv).1 →
        (selectWorkerAux rest i mi mv).2 < l.getD j 0)
  | [], i, mi, mv, l, hdrop, hmi, hile, hget, hmin, hstrict => by
    have hlen : l.length - i = 0 := by
      have := congrArg List.length hdrop
      simpa [List.length_drop] using this
    have hieq : i = l.length := by omega
    subst hieq
    simp only [selectWorkerAux]
    exact ⟨hmi, hget, fun j hj => hmin j hj, hstrict⟩
  | sz :: rest, i, mi, mv, l, hdrop, hmi, hile, hget, hmin, hstrict => by
    have hi : i < l.length := by
      by_contra hc
      rw [List.drop_eq_nil_of_le (by omega)] at hdrop
      exact absurd hdrop (by simp)
    rw [List.drop_eq_getElem_cons hi] at hdrop
    have hgetI : l.getD i 0 = sz := by
      rw [List.getD_eq_getElem?_getD, List.getElem?_eq_getElem hi]
      simpa using (List.cons_eq_cons.mp hdrop).1
    have hdrop' : l.drop (i + 1) = rest := (List.cons_eq_cons.mp hdrop).2
    by_cases hlt : sz < mv
    · have ih := selectWorkerAux_spec rest (i + 1) i sz l hdrop' (by omega)
        (by omega) hgetI
        (fun j hj => by
          rcases Nat.lt_succ_iff_lt_or_eq.mp hj with hj' | hj'
          · exact le_of_lt (lt_of_lt_of_le hlt (hmin j hj'))
          · subst hj'; omega)
        (fun j hj => lt_of_lt_of_le hlt (hmin j hj))
      simpa [selectWorkerAux, hlt] using ih
    · have ih := selectWorkerAux_spec rest (i + 1) mi mv l hdrop' (by omega)
        (by omega) hget
        (fun j hj => by
          rcases Nat.lt_succ_iff_lt_or_eq.mp hj with hj' | hj'
          · exact hmin j hj'
          · subst hj'; omega)
        hstrict
      simpa [selectWorkerAux, hlt] using ih

/-- The worker `SelectWorker` returns holds the minimum live count, and
every worker with a lower index holds a strictly larger count (lowest
index tie-break; worker 0 is the initial minimum). -/
lemma selectWorker_spec (sizes : List Nat) (h : sizes ≠ []) :
    selectWorker sizes < sizes.length ∧
    (∀ j, j < sizes.length →
      sizes.getD (selectWorker sizes) 0 ≤ sizes.getD j 0) ∧
    (∀ j, j < selectWorker sizes →
      sizes.getD (selectWorker sizes) 0 < sizes.getD j 0) := by
  match sizes with
  | [] => exact absurd rfl h
  | s0 :: rest =>
    have hs := selectWorkerAux_spec rest 1 0 s0 (s0 :: rest) (by simp)
      (by omega) (by simp) (by simp)
      (fun j hj => by
        have : j = 0 := by omega
        subst this; simp)
      (fun j hj => absurd hj (by omega))
    obtain ⟨h1, h2, h3, h4⟩ := hs
    refine ⟨h1, fun j hj => ?_, fun j hj => ?_⟩
    · have := h3 j hj
      rw [show selectWorker (s0 :: rest) = (selectWorkerAux rest 1 0 s0).1 from rfl, h2]
      exact this
    · rw [show selectWorker (s0 :: rest) = (selectWorkerAux rest 1 0 s0).1 from rfl, h2]
      exact h4 j hj

lemma acceptOne_length (l : List Nat) : (acceptOne l).length = l.length := by
  simp [acceptOne]

lemma balanced_acceptOne {l : List Nat} (hne : l ≠ []) (hbal : Balanced l) :
    Balanced (acceptOne l) := by
  obtain ⟨hr, hmin, _⟩ := selectWorker_spec l hne
  intro a b ha hb
  rw [acceptOne_length] at ha hb
  unfold acceptOne
  by_cases hae : selectWorker l = a <;> by_cases hbe : selectWorker l = b
  · subst hae
    rw [hbe]
    omega
  · subst hae
    rw [getD_set_self hr, getD_set_ne _ b _ hbe]
    have := hmin b hb
    omega
  · subst hbe
    rw [getD_set_ne _ a _ hae, getD_set_self hr]
    have := hbal a (selectWorker l) ha hr
    omega
  · rw [getD_set_ne _ a _ hae, getD_set_ne _ b _ hbe]
    exact hbal a b ha hb

lemma acceptK_length (N k : Nat) : (acceptK N k).length = N := by
  induction k with
  | zero => simp [acceptK]
  | succ n ih => rw [acceptK, acceptOne_length, ih]

lemma acceptK_ne_nil (N k : Nat) (hN : 1 ≤ N) : acceptK N k ≠ [] := by
  have hl := acceptK_length N k
  intro hc
  rw [hc] at hl
  simp at hl
  omega

lemma acceptK_sum (N k : Nat) (hN : 1 ≤ N) : (acceptK N k).sum = k := by
  induction k with
  | zero => simp [acceptK]
  | succ n ih =>
    have hr := (selectWorker_spec (acceptK N n) (acceptK_ne_nil N n hN)).1
    show (acceptOne (acceptK N n)).sum = n + 1
    unfold acceptOne
    rw [sum_set_succ _ _ hr, ih]

lemma acceptK_balanced (N k : Nat) (hN : 1 ≤ N) : Balanced (acceptK N k) := by
  induction k with
  | zero =>
    intro a b ha hb
    simp only [acceptK, List.length_replicate] at ha hb
    show (List.replicate N 0).getD a 0 ≤ (List.replicate N 0).getD b 0 + 1
    rw [List.getD_eq_getElem?_getD, List.getD_eq_getElem?_getD,
      List.getElem?_replicate, List.getElem?_replicate]
    simp [ha, hb]
  | succ n ih => exact balanced_acceptOne (acceptK_ne_nil N n hN) ih

lemma sum_le_mul_of_all_le : ∀ (l : List Nat) (m : Nat),
    (∀ j, j < l.length → l.getD j 0 ≤ m) → l.sum ≤ l.length * m
  | [], _, _ => by simp
  | a :: t, m, h => by
    have ha := h 0 (by simp)
    have ih := sum_le_mul_of_all_le t m (fun j hj => by
      simpa using h (j + 1) (by simpa using Nat.succ_lt_succ hj))
    simp only [List.sum_cons, List.length_cons, Nat.succ_mul]
    simp only [List.getD_cons_zero] at ha
    omega

lemma sum_lt_mul_of_exists_lt : ∀ (l : List Nat) (m i : Nat),
    (∀ j, j < l.length → l.getD j 0 ≤ m) → i < l.length → l.getD i 0 < m →
    l.sum < l.length * m
  | [], _, i, _, hi, _ => absurd hi (by simp)
  | a :: t, m, 0, h, _, hiv => by
    have ih := sum_le_mul_of_all_le t m (fun j hj => by
      simpa using h (j + 1) (by simpa using Nat.succ_lt_succ hj))
    simp only [List.getD_cons_zero] at hiv
    simp only [List.sum_cons, List.length_cons, Nat.succ_mul]
    omega
  | a :: t, m, i + 1, h, hi, hiv => by
    have ha := h 0 (by simp)
    have ih := sum_lt_mul_of_exists_lt t m i (fun j hj => by
      simpa using h (j + 1) (by simpa using Nat.succ_lt_succ hj))
      (by simpa using hi) (by simpa using hiv)
    simp only [List.getD_cons_zero] at ha
    simp only [List.sum_cons, List.length_cons, Nat.succ_mul]
    omega

lemma mul_le_sum_add_length : ∀ (l : List Nat) (v : Nat),
    (∀ j, j < l.length → v ≤ l.getD j 0 + 1) → l.length * v ≤ l.sum + l.length
  | [], _, _ => by simp
  | a :: t, v, h => by
    have ha := h 0 (by simp)
    have ih := mul_le_sum_add_length t v (fun j hj => by
      simpa using h (j + 1) (by simpa using Nat.succ_lt_succ hj))
    simp only [List.getD_cons_zero] at ha
    simp only [List.sum_cons, List.length_cons, Nat.succ_mul]
    omega

lemma mul_lt_sum_add_length : ∀ (l : List Nat) (v i : Nat),
    (∀ j, j < l.length → v ≤ l.getD j 0 + 1) → i < l.length → l.getD i 0 = v →
    l.length * v < l.sum + l.length
  | [], _, i, _, hi, _ => absurd hi (by simp)
  | a :: t, v, 0, h, _, hiv => by
    have ih := mul_le_sum_add_length t v (fun j hj => by
      simpa using h (j + 1) (by simpa using Nat.succ_lt_succ hj))
    simp only [List.getD_cons_zero] at hiv
    simp only [List.sum_cons, List.length_cons, Nat.succ_mul]
    omega
  | a :: t, v, i + 1, h, hi, hiv => by
    have ha := h 0 (by simp)
    have ih := mul_lt_sum_add_length t v i (fun j hj => by
      simpa using h (j + 1) (by simpa using Nat.succ_lt_succ hj))
      (by simpa using hi) (by simpa using hiv)
    simp only [List.getD_cons_zero] at ha
    simp only [List.sum_cons, List.length_cons, Nat.succ_mul]
    omega

lemma ceil_le_floor_succ (K N : Nat) (hN : 0 < N) :
    (K + N - 1) / N ≤ K / N + 1 := by
  have h1 : K + N - 1 < (K / N + 2) * N := by
    have hmod := Nat.div_add_mod K N
    have hlt : K % N < N := Nat.mod_lt _ hN
    have h2 : (K / N + 2) * N = N * (K / N) + 2 * N := by ring
    omega
  exact Nat.lt_succ_iff.mp ((Nat.div_lt_iff_lt_mul hN).mpr h1)

/-- **C5.** For `N ≥ 1` workers starting empty and `K` sequential
accepts with no closes: at every step the selected worker holds the
smallest live count with ties broken by lowest index (worker 0 is the
initial minimum), and after all `K` accepts every worker's live count is
`⌊K/N⌋` or `⌈K/N⌉` (the latter written `(K + N - 1) / N`). -/
theorem c5_least_loaded_distribution (N K : Nat) (hN : 1 ≤ N) :
    (∀ k j, j < N →
      selectWorker (acceptK N k) < N ∧
      (acceptK N k).getD (selectWorker (acceptK N k)) 0 ≤ (acceptK N k).getD j 0 ∧
      (j < selectWorker (acceptK N k) →
        (acceptK N k).getD (selectWorker (acceptK N k)) 0 <
          (acceptK N k).getD j 0)) ∧
    (acceptK N K).length = N ∧
    (∀ i, i < N →
      (acceptK N K).getD i 0 = K / N ∨
      (acceptK N K).getD i 0 = (K + N - 1) / N) := by
  refine ⟨?_, acceptK_length N K, ?_⟩
  · intro k j hj
    have hlen := acceptK_length N k
    have hs := selectWorker_spec (acceptK N k) (acceptK_ne_nil N k hN)
    rw [hlen] at hs
    exact ⟨hs.1, hs.2.1 j hj, fun hlt => hs.2.2 j hlt⟩
  · intro i hi
    have hlen := acceptK_length N K
    have hbal := acceptK_balanced N K hN
    have hsum := acceptK_sum N K hN
    set l := acceptK N K with hl
    set v := l.getD i 0 with hv
    have hub : ∀ j, j < l.length → l.getD j 0 ≤ v + 1 :=
      fun j hj => hbal j i hj (by omega)
    have hlow : K < (v + 1) * N := by
      have hx := sum_lt_mul_of_exists_lt l (v + 1) i hub (by omega) (by omega)
      rw [hsum, hlen, Nat.mul_comm] at hx
      exact hx
    have hfloor : K / N ≤ v :=
      Nat.lt_succ_iff.mp ((Nat.div_lt_iff_lt_mul (by omega)).mpr hlow)
    have hlb : ∀ j, j < l.length → v ≤ l.getD j 0 + 1 :=
      fun j hj => hbal i j (by omega) hj
    have hup : N * v < K + N := by
      have hx := mul_lt_sum_add_length l v i hlb (by omega) rfl
      rw [hsum, hlen] at hx
      exact hx
    have hceil : v ≤ (K + N - 1) / N := by
      rw [Nat.le_div_iff_mul_le (by omega : 0 < N)]
      have h2 : v * N = N * v := Nat.mul_comm v N
      omega
    have hcf := ceil_le_floor_succ K N (by omega)
    omega

/-- Witness for C5 with 4 workers and 8 accepts: the counts are exactly
`[2, 2, 2, 2]`, and every worker's count is `8 / 4`. -/
theorem c5_least_loaded_distribution_witness :
    (1 ≤ 4) ∧
    ((acceptK 4 8).getD 0 0 = 8 / 4 ∨ (acceptK 4 8).getD 0 0 = (8 + 4 - 1) / 4) ∧
    acceptK 4 8 = [2, 2, 2, 2] := by
  have h := c5_least_loaded_distribution 4 8 (by decide)
  exact ⟨by decide, h.2.2 0 (by decide), by decide⟩

lemma inv9_init : Inv9 WorkerState.init := by
  refine ⟨List.nodup_nil, List.nodup_nil, List.nodup_nil, ?_, ?_, ?_, ?_⟩ <;>
    intro x hx
  · exact absurd hx (by simp [WorkerState.init])
  · exact absurd hx (by simp [WorkerState.init])
  · exact absurd hx (by simp [WorkerState.init])
  · exact absurd hx (by simp [WorkerState.init])

lemma inv9_create {w : WorkerState} (h : Inv9 w) : Inv9 w.createSocket := by
  obtain ⟨h1, h2, h3, h4, h5, h6, h7⟩ := h
  have hfl : w.nextId ∉ w.live := fun q => absurd (h4 _ q) (by omega)
  have hfc : w.nextId ∉ w.closing := fun q => absurd (h5 _ q) (by omega)
  have hfd : w.nextId ∉ w.destroyed := fun q => absurd (h6 _ q) (by omega)
  refine ⟨List.nodup_cons.mpr ⟨hfl, h1⟩, h2, h3, ?_, ?_, ?_, ?_⟩
  · intro x hx
    show x < w.nextId + 1
    rcases List.mem_cons.mp hx with rfl | hx'
    · omega
    · have := h4 x hx'
      omega
  · intro x hx
    show x < w.nextId + 1
    have := h5 x hx
    omega
  · intro x hx
    show x < w.nextId + 1
    have := h6 x hx
    omega
  · intro x hx
    have hx2 : x < w.nextId + 1 := hx
    show (x ∈ w.nextId :: w.live ∧ x ∉ w.closing ∧ x ∉ w.destroyed) ∨
      (x ∉ w.nextId :: w.live ∧ x ∈ w.closing ∧ x ∉ w.destroyed) ∨
      (x ∉ w.nextId :: w.live ∧ x ∉ w.closing ∧ x ∈ w.destroyed)
    by_cases hxi : x = w.nextId
    · subst hxi
      exact Or.inl ⟨List.mem_cons_self _ _, hfc, hfd⟩
    · have hx' : x < w.nextId := by omega
      have e1 : x ∈ w.nextId :: w.live ↔ x ∈ w.live := by
        simp [List.mem_cons, hxi]
      rcases h7 x hx' with ⟨ha, hb, hc⟩ | ⟨ha, hb, hc⟩ | ⟨ha, hb, hc⟩
      · exact Or.inl ⟨e1.mpr ha, hb, hc⟩
      · exact Or.inr (Or.inl ⟨fun q => ha (e1.mp q), hb, hc⟩)
      · exact Or.inr (Or.inr ⟨fun q => ha (e1.mp q), hb, hc⟩)

lemma inv9_remove {w : WorkerState} (id : Nat) (h : Inv9 w) :
    Inv9 (w.removeSocket id) := by
  obtain ⟨h1, h2, h3, h4, h5, h6, h7⟩ := h
  unfold WorkerState.removeSocket
  split
  · rename_i hmem
    have hid : id < w.nextId := h4 id hmem
    rcases h7 id hid with ⟨_, hnc, hnd⟩ | ⟨hnl, _, _⟩ | ⟨hnl, _, _⟩
    · refine ⟨h1.erase id, List.nodup_cons.mpr ⟨hnc, h2⟩, h3, ?_, ?_, h6, ?_⟩
      · exact fun x hx => h4 x (List.mem_of_mem_erase hx)
      · intro x hx
        rcases List.mem_cons.mp hx with rfl | hx'
        · exact hid
        · exact h5 x hx'
      · intro x hx
        unfold ExactlyOne
        by_cases hxi : x = id
        · subst hxi
          refine Or.inr (Or.inl ⟨?_, List.mem_cons_self _ _, hnd⟩)
          intro hq
          exact (h1.mem_erase_iff.mp hq).1 rfl
        · have e1 : x ∈ w.live.erase id ↔ x ∈ w.live := List.mem_erase_of_ne hxi
          have e2 : x ∈ id :: w.closing ↔ x ∈ w.closing := by
            simp [List.mem_cons, hxi]
          rcases h7 x hx with ⟨ha, hb, hc⟩ | ⟨ha, hb, hc⟩ | ⟨ha, hb, hc⟩
          · exact Or.inl ⟨e1.mpr ha, fun q => hb (e2.mp q), hc⟩
          · exact Or.inr (Or.inl ⟨fun q => ha (e1.mp q), e2.mpr hb, hc⟩)
          · exact Or.inr (Or.inr ⟨fun q => ha (e1.mp q), fun q => hb (e2.mp q), hc⟩)
    · exact absurd hmem hnl
    · exact absurd hmem hnl
  · exact ⟨h1, h2, h3, h4, h5, h6, h7⟩

lemma inv9_close {w : WorkerState} (id : Nat) (h : Inv9 w) :
    Inv9 (w.closeSocket id) := by
  unfold WorkerState.closeSocket
  split
  · exact h
  · exact inv9_remove id h

lemma inv9_sweep {w : WorkerState} (h : Inv9 w) : Inv9 w.cleanupSweep := by
  obtain ⟨h1, h2, h3, h4, h5, h6, h7⟩ := h
  have hstay : ∀ x, x ∈ w.closing.filter (fun id => decide (id ∉ w.closedIds)) ↔
      (x ∈ w.closing ∧ x ∉ w.closedIds) := by
    intro x; simp [List.mem_filter]
  have hgone : ∀ x, x ∈ w.closing.filter (fun id => decide (id ∈ w.closedIds)) ↔
      (x ∈ w.closing ∧ x ∈ w.closedIds) := by
    intro x; simp [List.mem_filter]
  refine ⟨h1, h2.filter _, ?_, h4, ?_, ?_, ?_⟩
  · refine (h2.filter _).append h3 ?_
    intro x hx hx'
    have hxc := ((hgone x).mp hx).1
    have hid := h5 x hxc
    rcases h7 x hid with ⟨_, hb, _⟩ | ⟨_, _, hcq⟩ | ⟨_, hb, _⟩
    · exact hb hxc
    · exact hcq hx'
    · exact hb hxc
  · intro x hx
    exact h5 x ((hstay x).mp hx).1
  · intro x hx
    rcases List.mem_append.mp hx with hx' | hx'
    · exact h5 x ((hgone x).mp hx').1
    · exact h6 x hx'
  · intro x hx
    unfold ExactlyOne
    have e3 : x ∈ (w.closing.filter (fun id => decide (id ∈ w.closedIds)) ++
        w.destroyed) ↔ ((x ∈ w.closing ∧ x ∈ w.closedIds) ∨ x ∈ w.destroyed) := by
      rw [List.mem_append, hgone x]
    rcases h7 x hx with ⟨ha, hb, hc⟩ | ⟨ha, hb, hc⟩ | ⟨ha, hb, hc⟩
    · refine Or.inl ⟨ha, fun q => hb ((hstay x).mp q).1, fun q => ?_⟩
      rcases e3.mp q with ⟨q1, _⟩ | q2
      · exact hb q1
      · exact hc q2
    · by_cases hcl : x ∈ w.closedIds
      · refine Or.inr (Or.inr ⟨ha, fun q => ((hstay x).mp q).2 hcl, ?_⟩)
        exact e3.mpr (Or.inl ⟨hb, hcl⟩)
      · refine Or.inr (Or.inl ⟨ha, (hstay x).mpr ⟨hb, hcl⟩, fun q => ?_⟩)
        rcases e3.mp q with ⟨_, q2⟩ | q2
        · exact hcl q2
        · exact hc q2
    · refine Or.inr (Or.inr ⟨ha, fun q => hb ((hstay x).mp q).1, ?_⟩)
      exact e3.mpr (Or.inr hc)

lemma inv9_dtor {w : WorkerState} (h : Inv9 w) : Inv9 w.dtorStep := by
  unfold WorkerState.dtorStep
  split
  · exact h
  · rename_i hd t hl
    split
    · rename_i hclosed
      obtain ⟨h1, h2, h3, h4, h5, h6, h7⟩ := h
      have hmemhd : hd ∈ w.live := by rw [hl]; exact List.mem_cons_self _ _
      have hid : hd < w.nextId := h4 hd hmemhd
      have hnodup : (hd :: t).Nodup := by rw [← hl]; exact h1
      have hhdt : hd ∉ t := (List.nodup_cons.mp hnodup).1
      have ht : t.Nodup := (List.nodup_cons.mp hnodup).2
      rcases h7 hd hid with ⟨_, hnc, hnd⟩ | ⟨hnl, _, _⟩ | ⟨hnl, _, _⟩
      · refine ⟨ht, h2, List.nodup_cons.mpr ⟨hnd, h3⟩, ?_, h5, ?_, ?_⟩
        · intro x hx
          exact h4 x (by rw [hl]; exact List.mem_cons_of_mem _ hx)
        · intro x hx
          rcases List.mem_cons.mp hx with rfl | hx'
          · exact hid
          · exact h6 x hx'
        · intro x hx
          unfold ExactlyOne
          by_cases hxi : x = hd
          · subst hxi
            exact Or.inr (Or.inr ⟨hhdt, hnc, List.mem_cons_self _ _⟩)
          · have e1 : x ∈ t ↔ x ∈ w.live := by
              rw [hl]; simp [List.mem_cons, hxi]
            have e2 : x ∈ hd :: w.destroyed ↔ x ∈ w.destroyed := by
              simp [List.mem_cons, hxi]
            rcases h7 x hx with ⟨ha, hb, hc⟩ | ⟨ha, hb, hc⟩ | ⟨ha, hb, hc⟩
            · exact Or.inl ⟨e1.mpr ha, hb, fun q => hc (e2.mp q)⟩
            · exact Or.inr (Or.inl ⟨fun q => ha (e1.mp q), hb, fun q => hc (e2.mp q)⟩)
            · exact Or.inr (Or.inr ⟨fun q => ha (e1.mp q), hb, e2.mpr hc⟩)
      · exact absurd hmemhd hnl
      · exact absurd hmemhd hnl
    · exact inv9_close _ h

/-- **C9.** The ownership invariant — every created Connection is in
exactly one of {live-set, closing-set, destroyed}, the containers are
duplicate-free and hold only created ids — holds initially and is
preserved by every worker operation (`CreateSocket`, `Close` with its
`RemoveSocket` notification, a reaper sweep, a destructor-loop step). -/
theorem c9_exactly_one_ownership :
    Inv9 WorkerState.init ∧
    ∀ (w : WorkerState) (op : WorkerOp), Inv9 w → Inv9 (w.step op) := by
  refine ⟨inv9_init, ?_⟩
  intro w op h
  cases op with
  | create => exact inv9_create h
  | close id => exact inv9_close id h
  | sweep => exact inv9_sweep h
  | dtor => exact inv9_dtor h

/-- Witness for C9: the invariant after create, close 0, then a reaper
sweep on a concrete worker. -/
theorem c9_exactly_one_ownership_witness :
    Inv9 (((WorkerState.init.step WorkerOp.create).step
      (WorkerOp.close 0)).step WorkerOp.sweep) := by
  have h := c9_exactly_one_ownership
  exact h.2 _ _ (h.2 _ _ (h.2 _ _ h.1))

lemma inv10_close {w : WorkerState} (id : Nat) (h : Inv10 w) :
    Inv10 (w.closeSocket id) := by
  obtain ⟨hc, hd⟩ := h
  unfold WorkerState.closeSocket
  split
  · exact ⟨hc, hd⟩
  · unfold WorkerState.removeSocket
    split
    · refine ⟨?_, ?_⟩
      · intro x hx
        rcases List.mem_cons.mp hx with rfl | hx'
        · exact List.mem_cons_self _ _
        · exact List.mem_cons_of_mem _ (hc x hx')
      · intro x hx
        exact List.mem_cons_of_mem _ (hd x hx)
    · exact ⟨fun x hx => List.mem_cons_of_mem _ (hc x hx),
             fun x hx => List.mem_cons_of_mem _ (hd x hx)⟩

lemma inv10_step {w : WorkerState} (op : WorkerOp) (h : Inv10 w) :
    Inv10 (w.step op) := by
  obtain ⟨hc, hd⟩ := h
  cases op with
  | create => exact ⟨hc, hd⟩
  | close id => exact inv10_close id ⟨hc, hd⟩
  | sweep =>
    refine ⟨?_, ?_⟩
    · intro x hx
      exact hc x (List.mem_filter.mp hx).1
    · intro x hx
      rcases List.mem_append.mp hx with hx' | hx'
      · exact of_decide_eq_true (List.mem_filter.mp hx').2
      · exact hd x hx'
  | dtor =>
    show Inv10 w.dtorStep
    unfold WorkerState.dtorStep
    split
    · exact ⟨hc, hd⟩
    · split
      · rename_i hclosed
        refine ⟨hc, ?_⟩
        intro x hx
        rcases List.mem_cons.mp hx with rfl | hx'
        · exact hclosed
        · exact hd x hx'
      · exact inv10_close _ ⟨hc, hd⟩

/-- **C10.** Every Connection in the closing-set (and every destroyed
one) has `IsClosed() = true`: the property holds initially and is
preserved by every operation, because `Close()` publishes the null
handle strictly before it invokes the close-notification that moves the
Connection into the closing-set — the last conjunct states that very
ordering — and both destruction paths erase only closed Connections, so
`~Socket`'s `assert(IsClosed())` never fails. -/
theorem c10_closing_only_closed :
    Inv10 WorkerState.init ∧
    (∀ (w : WorkerState) (op : WorkerOp), Inv10 w → Inv10 (w.step op)) ∧
    (∀ (w : WorkerState) (id : Nat), id ∉ w.closedIds →
      w.closeSocket id =
        ({ w with closedIds := id :: w.closedIds }).removeSocket id) := by
  refine ⟨⟨?_, ?_⟩, fun w op h => inv10_step op h, ?_⟩
  · intro x hx
    exact absurd hx (by simp [WorkerState.init])
  · intro x hx
    exact absurd hx (by simp [WorkerState.init])
  · intro w id hid
    unfold WorkerState.closeSocket
    rw [if_neg hid]

/-- Witness for C10: the property after create, close 0, then a sweep. -/
theorem c10_closing_only_closed_witness :
    Inv10 (((WorkerState.init.step WorkerOp.create).step
      (WorkerOp.close 0)).step WorkerOp.sweep) := by
  have h := c10_closing_only_closed
  exact h.2.1 _ _ (h.2.1 _ _ (h.2.1 _ _ h.1))

/-- Witness for the amended C4 at the concrete invalid literal. -/
theorem c4_invalid_bind_amended_witness :
    inet_aton "999.0.0.1" = none ∧ 1 ≤ 1 ∧
    (listenerConstruct "999.0.0.1" 7000 1).outcome =
      Except.error "Invalid BindIP" ∧
    (listenerConstruct "999.0.0.1" 7000 1).threadsSpawned = 2 * 1 := by
  have h := c4_invalid_bind_amended "999.0.0.1" 7000 1 (by decide) (by decide)
  exact ⟨by decide, by decide, h.1, h.2.1⟩

end MaNGOS
